import Mathlib

/-!
Verification of the ceres-solver core against its natural-language
specification.

The development shallowly embeds the pieces of the source that the claims
are about:

* the preconditioned Conjugate Gradients solver
  (`internal/ceres/conjugate_gradients_solver.h`);
* `CgnrSolver::SolveImpl` (`internal/ceres/cgnr_solver.cc`);
* the residual-block evaluation loop of `ProgramEvaluator::Evaluate`
  (`internal/ceres/program_evaluator.h`);
* spec-modelled components whose implementation files are not part of the
  sources at hand (the top-level `Solve` degenerate-problem check, the
  `DenseQR`/`RefinedSparseCholesky` factor-and-solve composition, the
  power-series-expansion preconditioner accumulation loop, and the
  evaluation-callback protocol).

Scalars are embedded as exact rationals (`ℚ`).  IEEE-754 overflow to
infinity cannot occur in exact arithmetic, so `isinf(x)` is identically
false in the embedding and the C++ test `x == 0.0 || isinf(x)` reduces to
`x = 0`.  Lean's convention `q / 0 = 0` maps a C++ division producing
`±inf` to `0`; in each guarded branch of the CG solver this lands in the
same (zero-or-infinite) classification as the source.  Norm comparisons
`‖r‖ ≤ tol · ‖b‖` are expressed on squared norms, which is equivalent for
a non-negative tolerance and avoids irrational square roots.
-/

namespace Ceres

/-- Termination taxonomy `LinearSolverTerminationType` from `internal/ceres/types.h` /
`linear_solver.h` (the four-valued taxonomy described in spec §7). -/
inductive LinearSolverTerminationType where
  | SUCCESS
  | NO_CONVERGENCE
  | FAILURE
  | FATAL_ERROR
deriving DecidableEq, Repr

open LinearSolverTerminationType

/-- Result of one linear solve (`LinearSolver::Summary`). -/
structure Summary where
  termination_type : LinearSolverTerminationType
  message : String
  num_iterations : Nat
deriving DecidableEq, Repr

/-! ## Dense vectors

Vectors are lists of rationals.  `RightMultiply`-style operators are
embedded as plain functions `Vec → Vec`, matching the duck-typed
`LinearOperatorType` template parameter of `ConjugateGradientsSolver`. -/

abbrev Vec := List ℚ

/-- Componentwise sum (Eigen `x + y`). -/
def vadd (x y : Vec) : Vec := List.zipWith (· + ·) x y

/-- Componentwise difference (Eigen `x - y`). -/
def vsub (x y : Vec) : Vec := List.zipWith (· - ·) x y

/-- Scalar multiple (Eigen `a * x`). -/
def smul (a : ℚ) (x : Vec) : Vec := x.map (a * ·)

/-- Inner product (Eigen `x.dot(y)`). -/
def dot (x y : Vec) : ℚ := (List.zipWith (· * ·) x y).sum

/-- Eigen `x.setZero()`: all entries of the buffer become zero, length kept. -/
def setZero (x : Vec) : Vec := x.map (fun _ => (0 : ℚ))

/-- Squared Euclidean norm; `v.norm() == 0.0` iff `normSq v = 0`. -/
def normSq (x : Vec) : ℚ := dot x x

/-! ## ConjugateGradientsSolver (src/unnamed/part_004)

`ConjugateGradientsSolverOptions` and the templated function
`ConjugateGradientsSolver` translated field by field.  The solver's four
scratch vectors become locals; the `lhs` and `preconditioner` operators
become the functions `L` and `P` (both compute `y = Op·x` from a zeroed
accumulator, as the source does via `setZero` followed by
`RightMultiply`). -/

structure ConjugateGradientsSolverOptions where
  min_num_iterations : Nat
  max_num_iterations : Nat
  residual_reset_period : Nat
  r_tolerance : ℚ
  q_tolerance : ℚ
deriving Repr

/-- The source's `IsZeroOrInfinity` lambda: `x == 0.0 || std::isinf(x)`.
In exact rational arithmetic `isinf` is identically false. -/
def isZeroOrInfinity (x : ℚ) : Bool := x == 0

/-- The residual termination comparison `norm_r <= tol_r` with
`tol_r = r_tolerance * norm_b`, expressed on squared norms:
for `norm_b > 0`, `√rr ≤ r_tolerance · √bb` iff
`0 ≤ r_tolerance ∧ rr ≤ r_tolerance² · bb`. -/
def residualLeTol (r_tolerance rr bb : ℚ) : Bool :=
  (0 ≤ r_tolerance) && (rr ≤ r_tolerance ^ 2 * bb)

/-- Per-iteration state of the CG loop: the solution `x`, residual `r`,
search direction `p`, the previous `rho` and the previous quadratic-model
value `Q0`. -/
structure CGState where
  x : Vec
  r : Vec
  p : Vec
  rho : ℚ
  Q0 : ℚ
deriving Repr, DecidableEq

/-- Preconditioned residual `z = preconditioner · r` (the source zeroes `z` and calls
`preconditioner.RightMultiply(r, z)`). -/
def cgZ (P : Vec → Vec) (s : CGState) : Vec := P s.r

/-- The scalar `rho = r.dot(z)`. -/
def cgRho (P : Vec → Vec) (s : CGState) : ℚ := dot s.r (cgZ P s)

/-- The scalar `beta = rho / last_rho` (only consulted when `num_iterations > 1`). -/
def cgBeta (P : Vec → Vec) (s : CGState) : ℚ := cgRho P s / s.rho

/-- Search direction: `p = z` on the first iteration, else
`p = z + beta * p`. -/
def cgDir (P : Vec → Vec) (i : Nat) (s : CGState) : Vec :=
  if i = 1 then cgZ P s else vadd (cgZ P s) (smul (cgBeta P s) s.p)

/-- The vector `q = lhs · p` (the source reuses the `z` scratch buffer for `q`). -/
def cgQvec (L P : Vec → Vec) (i : Nat) (s : CGState) : Vec :=
  L (cgDir P i s)

/-- The scalar `pq = p.dot(q)`. -/
def cgPQ (L P : Vec → Vec) (i : Nat) (s : CGState) : ℚ :=
  dot (cgDir P i s) (cgQvec L P i s)

/-- The step length `alpha = rho / pq`. -/
def cgAlpha (L P : Vec → Vec) (i : Nat) (s : CGState) : ℚ :=
  cgRho P s / cgPQ L P i s

/-- The updated solution `solution = solution + alpha * p`. -/
def cgXnew (L P : Vec → Vec) (i : Nat) (s : CGState) : Vec :=
  vadd s.x (smul (cgAlpha L P i s) (cgDir P i s))

/-- Residual update: recomputed from scratch as `r = b - A·x` every
`residual_reset_period` iterations, else updated incrementally as
`r = r - alpha * q`. -/
def cgRnew (options : ConjugateGradientsSolverOptions) (L P : Vec → Vec)
    (rhs : Vec) (i : Nat) (s : CGState) : Vec :=
  if i % options.residual_reset_period = 0 then
    vsub rhs (L (cgXnew L P i s))
  else
    vsub s.r (smul (cgAlpha L P i s) (cgQvec L P i s))

/-- The value `Q1 = -1.0 * solution.dot(rhs + r)` of the quadratic model
`x'Ax - 2b'x` evaluated at the updated solution. -/
def cgQ1 (options : ConjugateGradientsSolverOptions) (L P : Vec → Vec)
    (rhs : Vec) (i : Nat) (s : CGState) : ℚ :=
  -1 * dot (cgXnew L P i s) (vadd rhs (cgRnew options L P rhs i s))

/-- The quantity `zeta = i * (Q1 - Q0) / Q1`, the Nash truncated-Newton progress
measure. -/
def cgZeta (options : ConjugateGradientsSolverOptions) (L P : Vec → Vec)
    (rhs : Vec) (i : Nat) (s : CGState) : ℚ :=
  (i : ℚ) * (cgQ1 options L P rhs i s - s.Q0) / cgQ1 options L P rhs i s

/-- One body of the `for (summary.num_iterations = 1;; ...)` loop of
`ConjugateGradientsSolver`, at iteration number `i`, in source order:

1. `rho = r'z` zero-or-infinite → break with FAILURE;
2. (for `i > 1`) `beta = rho / last_rho` zero-or-infinite → break with
   FAILURE;
3. `pq ≤ 0` or infinite → break with NO_CONVERGENCE (matrix indefinite);
4. (`alpha = rho / pq` is finite in exact arithmetic, so the
   `isinf(alpha)` FAILURE branch of the source cannot fire and is not
   represented);
5. quadratic-model test: `zeta < q_tolerance` once
   `i ≥ min_num_iterations` → break with SUCCESS;
6. residual test: `‖r‖ ≤ tol_r` once `i ≥ min_num_iterations` → break
   with SUCCESS;
7. `i ≥ max_num_iterations` → break, keeping the initial
   NO_CONVERGENCE / "Maximum number of iterations reached." summary.

A terminal outcome is returned as `.inl (summary, solution)`; otherwise
`.inr` carries the next state. -/
def cgIteration (options : ConjugateGradientsSolverOptions)
    (L P : Vec → Vec) (rhs : Vec) (bb : ℚ) (i : Nat) (s : CGState) :
    Sum (Summary × Vec) CGState :=
  if isZeroOrInfinity (cgRho P s) then
    .inl (⟨FAILURE, "Numerical failure. rho = r'z.", i⟩, s.x)
  else if i ≠ 1 ∧ isZeroOrInfinity (cgBeta P s) then
    .inl (⟨FAILURE, "Numerical failure. beta = rho_n / rho_nm1.", i⟩, s.x)
  else if cgPQ L P i s ≤ 0 then
    .inl (⟨NO_CONVERGENCE,
           "Matrix is indefinite, no more progress can be made.", i⟩, s.x)
  else if cgZeta options L P rhs i s < options.q_tolerance ∧
          options.min_num_iterations ≤ i then
    .inl (⟨SUCCESS, "Convergence: zeta < q_tolerance.", i⟩,
          cgXnew L P i s)
  else if residualLeTol options.r_tolerance
            (normSq (cgRnew options L P rhs i s)) bb = true ∧
          options.min_num_iterations ≤ i then
    .inl (⟨SUCCESS, "Convergence. |r| <= tol_r.", i⟩, cgXnew L P i s)
  else if options.max_num_iterations ≤ i then
    .inl (⟨NO_CONVERGENCE, "Maximum number of iterations reached.", i⟩,
          cgXnew L P i s)
  else
    .inr ⟨cgXnew L P i s, cgRnew options L P rhs i s, cgDir P i s,
          cgRho P s, cgQ1 options L P rhs i s⟩

/-- The CG iteration loop.  `fuel` bounds the recursion; since iteration
`i ≥ max_num_iterations` always breaks, starting fuel
`max_num_iterations + 1` at `i = 1` never exhausts (the fuel-0 default
repeats the initial NO_CONVERGENCE summary). -/
def cgLoop (options : ConjugateGradientsSolverOptions)
    (L P : Vec → Vec) (rhs : Vec) (bb : ℚ) :
    Nat → Nat → CGState → Summary × Vec
  | 0, i, s =>
      (⟨NO_CONVERGENCE, "Maximum number of iterations reached.", i - 1⟩,
       s.x)
  | fuel + 1, i, s =>
      match cgIteration options L P rhs bb i s with
      | .inl done => done
      | .inr next => cgLoop options L P rhs bb fuel (i + 1) next

/-- The solver entry point `ConjugateGradientsSolver` (src/unnamed/part_004, lines 87-270):
entry checks followed by the iteration loop.

* `‖b‖ = 0`: zero the solution, return SUCCESS at 0 iterations;
* `min_num_iterations == 0` and the initial residual already passes the
  residual test: return SUCCESS at 0 iterations;
* otherwise run the loop from iteration 1 with `rho = 1.0` and
  `Q0 = -solution.dot(rhs + r)`. -/
def ConjugateGradientsSolver (options : ConjugateGradientsSolverOptions)
    (L P : Vec → Vec) (rhs : Vec) (solution : Vec) : Summary × Vec :=
  let bb := normSq rhs
  if bb == 0 then
    (⟨SUCCESS, "Convergence. |b| = 0.", 0⟩, setZero solution)
  else
    let r := vsub rhs (L solution)
    if options.min_num_iterations = 0 ∧
        residualLeTol options.r_tolerance (normSq r) bb = true then
      (⟨SUCCESS, "Convergence. |r| <= tol_r.", 0⟩, solution)
    else
      cgLoop options L P rhs bb (options.max_num_iterations + 1) 1
        ⟨solution, r, setZero solution, 1,
         -1 * dot solution (vadd rhs r)⟩

/-! ## CgnrSolver::SolveImpl (src/unnamed/part_000)

The block-sparse Jacobian `A` is embedded as a row list together with its
declared column count (`A->num_cols()`).  `RightMultiply` computes `A·x`,
`LeftMultiply` computes `Aᵗ·y` (both into a zeroed accumulator, as all
call sites do). -/

structure SpMat where
  num_cols : Nat
  rows : List Vec
deriving Repr

/-- The product `A.RightMultiply(x, y)` with `y` zeroed first: returns `A·x`. -/
def SpMat.rightMultiply (A : SpMat) (x : Vec) : Vec :=
  A.rows.map (fun row => dot row x)

/-- The product `A.LeftMultiply(y, z)` with `z` zeroed first: returns `Aᵗ·y`, i.e.
the `y`-weighted sum of the rows of `A`. -/
def SpMat.leftMultiply (A : SpMat) (y : Vec) : Vec :=
  (A.rows.zip y).foldl (fun acc rw => vadd acc (smul rw.2 rw.1))
    (List.replicate A.num_cols (0 : ℚ))

/-- The operator `CgnrLinearOperator::RightMultiply`: `y = Aᵗ(A·x) + DᵗD·x` with the
damping vector `D` acting diagonally. -/
def cgnrLhs (A : SpMat) (D : Vec) (x : Vec) : Vec :=
  vadd (A.leftMultiply (A.rightMultiply x))
    (List.zipWith (fun d xi => d * d * xi) D x)

/-- The method `CgnrSolver::SolveImpl`:

1. form `z = Aᵗb` once;
2. build/update the preconditioner from `A` and the damping `D` alone
   (`mkPre` stands for the Jacobi / subset / identity preconditioner
   constructed in lines 82-102 of the source, a function of `A`, `D` and
   the solver options only — never of `x`);
3. zero the output buffer: `VectorRef(x, A->num_cols()).setZero()`;
4. run `ConjugateGradientsSolver` on `(AᵗA + DᵗD) x = z`. -/
def CgnrSolverSolveImpl (options : ConjugateGradientsSolverOptions)
    (mkPre : SpMat → Vec → (Vec → Vec)) (A : SpMat) (b : Vec) (D : Vec)
    (x : Vec) : Summary × Vec :=
  let z := A.leftMultiply b
  ConjugateGradientsSolver options (cgnrLhs A D) (mkPre A D) z (setZero x)

/-! ## ProgramEvaluator::Evaluate residual-block loop
(src/internal/ceres/program_evaluator.h, lines 144-247)

Without OpenMP the evaluator checks `num_threads == 1`
(`CHECK_EQ(1, options_.num_threads)`), so the loop over residual blocks
is embedded sequentially.  A residual block's evaluation outcome is
`some cost` on success and `none` when `ResidualBlock::Evaluate` returns
false.  The state tracks the shared `abort` flag, the accumulated
cost, and the indices of the blocks whose residual/Jacobian writes were
performed. -/

structure EvalState where
  abort : Bool
  cost : ℚ
  written : List Nat
deriving Repr, DecidableEq

/-- One iteration of the residual-block loop: if `abort` is already set
the body is skipped (`if (abort) continue;`); a failed block evaluation
sets `abort` and skips its writes; a successful one accumulates its cost
and performs its writes. -/
def evalBlockStep (st : EvalState) (idx : Nat) (blk : Option ℚ) :
    EvalState :=
  if st.abort then st
  else
    match blk with
    | none => { st with abort := true }
    | some c => { st with cost := st.cost + c, written := st.written ++ [idx] }

/-- The loop over residual blocks `i = idx, idx+1, ...`. -/
def evalLoop : Nat → List (Option ℚ) → EvalState → EvalState
  | _, [], st => st
  | idx, blk :: rest, st =>
      evalLoop (idx + 1) rest (evalBlockStep st idx blk)

/-- The method `ProgramEvaluator::Evaluate` restricted to the residual-block loop
and the final reduction: returns `!abort`, the total cost when no abort
occurred (the reduction inside `if (!abort)`), and the set of performed
writes. -/
def ProgramEvaluatorEvaluate (blocks : List (Option ℚ)) :
    Bool × Option ℚ × List Nat :=
  let fin := evalLoop 0 blocks ⟨false, 0, []⟩
  (!fin.abort, if fin.abort then none else some fin.cost, fin.written)

/-! ## Top-level Solve: degenerate-problem check

The implementation of `Solve` (solver.cc / trust-region preprocessor) is
not among the sources; only its tests are (src/unnamed/part_002).  The
check is therefore modelled from the spec. -/

/-- A parameter block as the degenerate-problem check sees it: its
constancy flag. -/
structure ParamBlockInfo where
  is_constant : Bool
deriving Repr, DecidableEq

/-- The problem summary data the pre-loop check consults. -/
structure ProblemShape where
  parameter_blocks : List ParamBlockInfo
  num_residual_blocks : Nat
deriving Repr, DecidableEq

def numNonConstantParameterBlocks (p : ProblemShape) : Nat :=
  (p.parameter_blocks.filter (fun b => !b.is_constant)).length

/-- Solver termination taxonomy of `Solver::Summary`. -/
inductive SolverTerminationType where
  | CONVERGENCE
  | NO_CONVERGENCE
  | FAILURE
  | USER_SUCCESS
deriving DecidableEq, Repr

structure SolverSummary where
  termination_type : SolverTerminationType
  message : String
deriving DecidableEq, Repr

/-- Modelled from the spec: the top-level `Solve` of solver.cc is not
among the sources.  "Special-case degenerate problems: zero non-constant
parameter blocks or identically-zero residual count are detected before
the loop starts and reported as immediate CONVERGENCE with a fixed
diagnostic message, without invoking the evaluator."  `minimize` stands
for the whole remaining pipeline (preprocessing, minimization loop,
evaluator calls); it reports the number of evaluator invocations it
performed.  The degenerate branch returns before it runs. -/
def SolveModel
    (minimize : ProblemShape → SolverSummary × Nat)
    (p : ProblemShape) : SolverSummary × Nat :=
  if numNonConstantParameterBlocks p = 0 ∨ p.num_residual_blocks = 0 then
    (⟨SolverTerminationType.CONVERGENCE,
      "Function tolerance reached. No non-constant parameter blocks found."⟩,
     0)
  else
    minimize p

/-! ## DenseQR / RefinedSparseCholesky factor-and-solve composition

`DenseQR::FactorAndSolve` is declared and documented in
src/internal/ceres/dense_qr.h ("Solve is only called if Factorize
returns LINEAR_SOLVER_SUCCESS"), and `RefinedSparseCholesky` is
exercised by the mock-based tests in src/unnamed/part_006, but both
method bodies live in .cc files that are not among the sources, so the
composition is modelled from the spec. -/

/-- A direct-solver back end as the composition sees it: the termination
types its `Factorize` and `Solve` calls would return. -/
structure DirectSolverBackend where
  factorize_result : LinearSolverTerminationType
  solve_result : LinearSolverTerminationType
deriving DecidableEq, Repr

/-- Modelled from the spec: the body of `DenseQR::FactorAndSolve`
(dense_qr.cc) / `SparseCholesky::FactorAndSolve` (sparse_cholesky.cc) is
not among the sources.  "`FactorAndSolve` composes both,
short-circuiting (skipping `Solve`) if `Factorize` did not return
SUCCESS."  Returns the resulting termination type and whether `Solve`
was invoked. -/
def FactorAndSolve (b : DirectSolverBackend) :
    LinearSolverTerminationType × Bool :=
  if b.factorize_result ≠ SUCCESS then (b.factorize_result, false)
  else (b.solve_result, true)

/-- Modelled from the spec: `RefinedSparseCholesky::FactorAndSolve`
(sparse_cholesky.cc) is not among the sources.  "An optional
iterative-refinement wrapper re-solves and corrects for residual
round-off after a successful factor-and-solve, invoked only on
success."  Returns the termination type, whether `Solve` was invoked,
and whether `Refine` was invoked. -/
def RefinedFactorAndSolve (b : DirectSolverBackend) :
    LinearSolverTerminationType × Bool × Bool :=
  let inner := FactorAndSolve b
  if inner.1 = SUCCESS then (inner.1, inner.2, true)
  else (inner.1, inner.2, false)

/-! ## Power-series-expansion preconditioner accumulation loop

`PowerSeriesExpansionPreconditioner::RightMultiply` is declared in
src/internal/ceres/power_series_expansion_preconditioner.h and exercised
by its test, but its body (.cc) is not among the sources, so the
accumulation loop is modelled from the spec: "accumulate successive
Neumann-series terms until the relative change is below a tolerance or a
maximum iteration count is reached, whichever first".  The Neumann-series
terms for a fixed input vector are abstracted into a scalar sequence
`t : Nat → ℚ`; `t 0` is the initial term (the input itself), the loop
adds `t 1, t 2, ...`. -/

/-- Partial sums of the Neumann series: `pseSum t n = t 0 + ... + t n`. -/
def pseSum (t : Nat → ℚ) : Nat → ℚ
  | 0 => t 0
  | n + 1 => pseSum t n + t (n + 1)

/-- The stopping test at iteration `i ≥ 1` with accumulated value
`acc2`: relative change of the accumulated sum below the tolerance (only
honoured once `i ≥ min_iterations`), or the iteration cap reached. -/
def pseStopAcc (tol : ℚ) (minIt maxIt : Nat) (t : Nat → ℚ) (i : Nat)
    (acc2 : ℚ) : Bool :=
  (decide (minIt ≤ i) && decide (|t i| ≤ tol * |acc2|)) ||
    decide (maxIt ≤ i)

/-- The stopping test evaluated on the partial sums of the series. -/
def pseStopB (tol : ℚ) (minIt maxIt : Nat) (t : Nat → ℚ) (i : Nat) :
    Bool :=
  pseStopAcc tol minIt maxIt t i (pseSum t i)

/-- The accumulation loop: add the next term, stop when the stopping
test fires.  `fuel` bounds the recursion; starting it at
`max_iterations + 1` never exhausts because iteration
`i ≥ max_iterations` always stops. -/
def pseLoop (tol : ℚ) (minIt maxIt : Nat) (t : Nat → ℚ) :
    Nat → ℚ → Nat → ℚ × Nat
  | 0, acc, i => (acc, i - 1)
  | fuel + 1, acc, i =>
      let acc2 := acc + t i
      if pseStopAcc tol minIt maxIt t i acc2 then (acc2, i)
      else pseLoop tol minIt maxIt t fuel acc2 (i + 1)

/-- Modelled from the spec: the power series expansion preconditioner
stopping rule (.cc body absent from the sources); run the accumulation from the initial term, returning
the accumulated value and the number of loop iterations performed. -/
def PowerSeriesAccumulate (tol : ℚ) (minIt maxIt : Nat) (t : Nat → ℚ) :
    ℚ × Nat :=
  pseLoop tol minIt maxIt t (maxIt + 1) (t 0) 1

/-! ## Constant parameter blocks across a solve

The trust-region minimizer and `Plus` (program.cc, trust-region
minimizer .cc) are not among the sources — src/unnamed/part_002 holds
only their tests — so the state-update discipline is modelled from the
spec: constant parameter blocks have no offset in the delta vector and
`Plus` mutates only non-constant blocks in place. -/

/-- A scalar parameter block: its stored value and constancy flag. -/
structure PBlock where
  value : ℚ
  is_constant : Bool
deriving DecidableEq, Repr

/-- A residual block: the indices of the parameter blocks it touches and
its residual value as a function of those blocks' values (in order). -/
structure RBlock where
  touched : List Nat
  f : List ℚ → ℚ

/-- The value stored in block `i`. -/
def blockValue (blocks : List PBlock) (i : Nat) : ℚ :=
  ((blocks.get? i).map PBlock.value).getD 0

/-- Modelled from the spec: `Plus` applied with one candidate delta.
"All non-constant parameter-block offsets are contiguous and distinct in
the global delta vector": the deltas are consumed in order by the
non-constant blocks; constant blocks are skipped and left untouched. -/
def plusStep : List PBlock → List ℚ → List PBlock
  | [], _ => []
  | b :: bs, ds =>
      if b.is_constant then b :: plusStep bs ds
      else
        match ds with
        | [] => b :: plusStep bs []
        | d :: ds2 => { b with value := b.value + d } :: plusStep bs ds2

/-- Modelled from the spec: a whole solve, seen through its effect on
the parameter state, is the sequence of accepted steps applied by
`Plus`. -/
def runSolveSteps (blocks : List PBlock) (steps : List (List ℚ)) :
    List PBlock :=
  steps.foldl plusStep blocks

/-- Total cost `1/2 Σ rᵢ²` of the residual blocks at the given
parameter state (each residual reads exactly the blocks it touches). -/
def totalCost (residuals : List RBlock) (blocks : List PBlock) : ℚ :=
  (residuals.map
      (fun r => r.f (r.touched.map (blockValue blocks)) ^ 2)).sum / 2

/-! ## Evaluation-callback protocol

The minimizer/evaluator wrapper that invokes `EvaluationCallback` is not
among the sources — src/internal/ceres/evaluation_callback_test.cc holds
only its test — so the protocol is modelled from the spec: before each
evaluation (cost-only or cost-plus-Jacobian) of a point, the callback's
`PrepareForEvaluation` runs exactly once with the parameter values the
cost function is about to observe, and `new_evaluation_point` records
whether the point differs from the previously evaluated one. -/

inductive CbEvent where
  | prepare (x : ℚ) (jac : Bool) (newPoint : Bool)
  | evaluate (x : ℚ) (jac : Bool)
deriving DecidableEq, Repr

def CbEvent.isPrepare : CbEvent → Bool
  | .prepare _ _ _ => true
  | .evaluate _ _ => false

/-- Modelled from the spec: the instrumented run.  Each requested
evaluation `(x, jac)` emits one `prepare` event immediately followed by
the matching `evaluate` event; `last` is the previously evaluated
parameter value (none before the first evaluation). -/
def callbackTrace : Option ℚ → List (ℚ × Bool) → List CbEvent
  | _, [] => []
  | last, (x, jac) :: rest =>
      CbEvent.prepare x jac (decide (last ≠ some x)) ::
        CbEvent.evaluate x jac :: callbackTrace (some x) rest

/-- The event trace of one solve performing the given evaluations. -/
def runWithCallback (reqs : List (ℚ × Bool)) : List CbEvent :=
  callbackTrace none reqs

/-! # Theorems -/

open SolverTerminationType

/-- C3: if the right-hand side `b` passed to `ConjugateGradientsSolver`
has zero norm, the solver sets the solution to the zero vector and
returns SUCCESS with `num_iterations = 0`, performing no CG
iterations. -/
theorem cg_zero_rhs (options : ConjugateGradientsSolverOptions)
    (L P : Vec → Vec) (rhs solution : Vec) (h : normSq rhs = 0) :
    ConjugateGradientsSolver options L P rhs solution =
      (⟨SUCCESS, "Convergence. |b| = 0.", 0⟩, setZero solution) := by
  simp [ConjugateGradientsSolver, h]

/-- Witness for `cg_zero_rhs` at `b = [0, 0]`, `x = [3, 4]`. -/
theorem cg_zero_rhs_witness :
    normSq [(0 : ℚ), 0] = 0 ∧
      ConjugateGradientsSolver ⟨0, 7, 10, 1, 1⟩ (fun v => v) (fun v => v)
          [(0 : ℚ), 0] [(3 : ℚ), 4] =
        (⟨SUCCESS, "Convergence. |b| = 0.", 0⟩, [(0 : ℚ), 0]) :=
  ⟨by norm_num [normSq, dot],
   cg_zero_rhs ⟨0, 7, 10, 1, 1⟩ (fun v => v) (fun v => v)
     [(0 : ℚ), 0] [(3 : ℚ), 4] (by norm_num [normSq, dot])⟩

/-- C1: terminal classification of the CG loop breakdowns (nonzero
right-hand side, i.e. inside the iteration loop): `rho = r'z` zero (or,
in floating point, infinite) breaks with FAILURE; `beta = rho / last_rho`
zero breaks with FAILURE; `p'q ≤ 0` (indefinite matrix) breaks with
NO_CONVERGENCE, not FAILURE; and reaching `max_num_iterations` with
neither convergence test passing breaks with NO_CONVERGENCE. -/
theorem cg_terminal_classification
    (options : ConjugateGradientsSolverOptions) (L P : Vec → Vec)
    (rhs : Vec) (bb : ℚ) (i : Nat) (s : CGState) :
    (cgRho P s = 0 →
      cgIteration options L P rhs bb i s =
        .inl (⟨FAILURE, "Numerical failure. rho = r'z.", i⟩, s.x)) ∧
    (cgRho P s ≠ 0 → i ≠ 1 → cgBeta P s = 0 →
      cgIteration options L P rhs bb i s =
        .inl (⟨FAILURE, "Numerical failure. beta = rho_n / rho_nm1.", i⟩,
              s.x)) ∧
    (cgRho P s ≠ 0 → (i ≠ 1 → cgBeta P s ≠ 0) → cgPQ L P i s ≤ 0 →
      cgIteration options L P rhs bb i s =
        .inl (⟨NO_CONVERGENCE,
               "Matrix is indefinite, no more progress can be made.", i⟩,
              s.x)) ∧
    (cgRho P s ≠ 0 → (i ≠ 1 → cgBeta P s ≠ 0) → 0 < cgPQ L P i s →
      ¬(cgZeta options L P rhs i s < options.q_tolerance ∧
          options.min_num_iterations ≤ i) →
      ¬(residualLeTol options.r_tolerance
            (normSq (cgRnew options L P rhs i s)) bb = true ∧
          options.min_num_iterations ≤ i) →
      options.max_num_iterations ≤ i →
      cgIteration options L P rhs bb i s =
        .inl (⟨NO_CONVERGENCE, "Maximum number of iterations reached.",
               i⟩, cgXnew L P i s)) := by
  refine ⟨?_, ?_, ?_, ?_⟩
  · intro h
    simp [cgIteration, isZeroOrInfinity, h]
  · intro hrho hi hbeta
    simp [cgIteration, isZeroOrInfinity, hrho, hi, hbeta]
  · intro hrho hbeta hpq
    have h2 : ¬(i ≠ 1 ∧ (cgBeta P s == 0) = true) := by
      rintro ⟨a, b⟩
      exact hbeta a (by simpa using b)
    simp only [cgIteration, isZeroOrInfinity]
    rw [if_neg (by simpa using hrho), if_neg h2, if_pos hpq]
  · intro hrho hbeta hpq hq hr hmax
    have h2 : ¬(i ≠ 1 ∧ (cgBeta P s == 0) = true) := by
      rintro ⟨a, b⟩
      exact hbeta a (by simpa using b)
    simp only [cgIteration, isZeroOrInfinity]
    rw [if_neg (by simpa using hrho), if_neg h2,
      if_neg (not_le.mpr hpq), if_neg hq, if_neg hr, if_pos hmax]

/-- Witness for `cg_terminal_classification`: each of the four terminal
branches exercised at a concrete iteration. -/
theorem cg_terminal_classification_witness :
    (cgIteration ⟨0, 7, 10, 1, 1⟩ (fun v => v) (fun v => v) [(1 : ℚ)] 1 1
        ⟨[0], [0], [0], 1, 0⟩ =
      .inl (⟨FAILURE, "Numerical failure. rho = r'z.", 1⟩, [0])) ∧
    (cgIteration ⟨0, 7, 10, 1, 1⟩ (fun v => v) (fun v => v) [(1 : ℚ)] 1 2
        ⟨[0], [1], [1], 0, 0⟩ =
      .inl (⟨FAILURE, "Numerical failure. beta = rho_n / rho_nm1.", 2⟩,
            [0])) ∧
    (cgIteration ⟨0, 7, 10, 1, 1⟩ (fun v => smul (-1) v) (fun v => v)
        [(1 : ℚ)] 1 1 ⟨[0], [1], [1], 1, 0⟩ =
      .inl (⟨NO_CONVERGENCE,
             "Matrix is indefinite, no more progress can be made.", 1⟩,
            [0])) ∧
    (cgIteration ⟨5, 1, 10, 1, 1⟩ (fun v => v) (fun v => v) [(1 : ℚ)] 1 1
        ⟨[0], [1], [0], 1, 0⟩ =
      .inl (⟨NO_CONVERGENCE, "Maximum number of iterations reached.", 1⟩,
            cgXnew (fun v => v) (fun v => v) 1 ⟨[0], [1], [0], 1, 0⟩)) :=
  ⟨(cg_terminal_classification ⟨0, 7, 10, 1, 1⟩ (fun v => v) (fun v => v)
      [(1 : ℚ)] 1 1 ⟨[0], [0], [0], 1, 0⟩).1
     (by norm_num [cgRho, cgZ, dot]),
   (cg_terminal_classification ⟨0, 7, 10, 1, 1⟩ (fun v => v) (fun v => v)
      [(1 : ℚ)] 1 2 ⟨[0], [1], [1], 0, 0⟩).2.1
     (by norm_num [cgRho, cgZ, dot]) (by norm_num)
     (by norm_num [cgBeta, cgRho, cgZ, dot]),
   (cg_terminal_classification ⟨0, 7, 10, 1, 1⟩ (fun v => smul (-1) v)
      (fun v => v) [(1 : ℚ)] 1 1 ⟨[0], [1], [1], 1, 0⟩).2.2.1
     (by norm_num [cgRho, cgZ, dot]) (fun h => absurd rfl h)
     (by norm_num [cgPQ, cgQvec, cgDir, cgZ, cgRho, dot, smul]),
   (cg_terminal_classification ⟨5, 1, 10, 1, 1⟩ (fun v => v) (fun v => v)
      [(1 : ℚ)] 1 1 ⟨[0], [1], [0], 1, 0⟩).2.2.2
     (by norm_num [cgRho, cgZ, dot]) (fun h => absurd rfl h)
     (by norm_num [cgPQ, cgQvec, cgDir, cgZ, cgRho, dot])
     (by norm_num) (by norm_num) (by norm_num)⟩

/-- C2: once the iteration count is at least `min_num_iterations`, the
iteration breaks with SUCCESS as soon as the quadratic-model test
`zeta < q_tolerance` or the residual test `‖r‖ ≤ r_tolerance·‖b‖` holds
at the end of an iteration (when the iteration reached the tests, i.e.
no numerical breakdown fired first); and while the iteration count is
below `min_num_iterations` no iteration terminates with SUCCESS. -/
theorem cg_success_tests
    (options : ConjugateGradientsSolverOptions) (L P : Vec → Vec)
    (rhs : Vec) (bb : ℚ) (i : Nat) (s : CGState) :
    (cgRho P s ≠ 0 → (i ≠ 1 → cgBeta P s ≠ 0) → 0 < cgPQ L P i s →
      cgZeta options L P rhs i s < options.q_tolerance →
      options.min_num_iterations ≤ i →
      cgIteration options L P rhs bb i s =
        .inl (⟨SUCCESS, "Convergence: zeta < q_tolerance.", i⟩,
              cgXnew L P i s)) ∧
    (cgRho P s ≠ 0 → (i ≠ 1 → cgBeta P s ≠ 0) → 0 < cgPQ L P i s →
      residualLeTol options.r_tolerance
          (normSq (cgRnew options L P rhs i s)) bb = true →
      options.min_num_iterations ≤ i →
      ∃ m, cgIteration options L P rhs bb i s =
        .inl (⟨SUCCESS, m, i⟩, cgXnew L P i s)) ∧
    (i < options.min_num_iterations →
      ∀ sm v, cgIteration options L P rhs bb i s = .inl (sm, v) →
        sm.termination_type ≠ SUCCESS) := by
  refine ⟨?_, ?_, ?_⟩
  · intro hrho hbeta hpq hq hmin
    have h2 : ¬(i ≠ 1 ∧ (cgBeta P s == 0) = true) := by
      rintro ⟨a, b⟩
      exact hbeta a (by simpa using b)
    simp only [cgIteration, isZeroOrInfinity]
    rw [if_neg (by simpa using hrho), if_neg h2,
      if_neg (not_le.mpr hpq), if_pos ⟨hq, hmin⟩]
  · intro hrho hbeta hpq hr hmin
    have h2 : ¬(i ≠ 1 ∧ (cgBeta P s == 0) = true) := by
      rintro ⟨a, b⟩
      exact hbeta a (by simpa using b)
    by_cases hquad : cgZeta options L P rhs i s < options.q_tolerance ∧
        options.min_num_iterations ≤ i
    · refine ⟨"Convergence: zeta < q_tolerance.", ?_⟩
      simp only [cgIteration, isZeroOrInfinity]
      rw [if_neg (by simpa using hrho), if_neg h2,
        if_neg (not_le.mpr hpq), if_pos hquad]
    · refine ⟨"Convergence. |r| <= tol_r.", ?_⟩
      simp only [cgIteration, isZeroOrInfinity]
      rw [if_neg (by simpa using hrho), if_neg h2,
        if_neg (not_le.mpr hpq), if_neg hquad, if_pos ⟨hr, hmin⟩]
  · intro hlt sm v h
    simp only [cgIteration, isZeroOrInfinity] at h
    split at h
    · simp only [Sum.inl.injEq, Prod.mk.injEq] at h
      rw [← h.1]
      simp
    · split at h
      · simp only [Sum.inl.injEq, Prod.mk.injEq] at h
        rw [← h.1]
        simp
      · split at h
        · simp only [Sum.inl.injEq, Prod.mk.injEq] at h
          rw [← h.1]
          simp
        · split at h
          · rename_i hcond
            omega
          · split at h
            · rename_i hcond
              omega
            · split at h
              · simp only [Sum.inl.injEq, Prod.mk.injEq] at h
                rw [← h.1]
                simp
              · cases h

/-- Witness for `cg_success_tests`: a concrete iteration where both
tests pass (quadratic-model branch taken), the same iteration through
the residual conjunct, and a below-minimum iteration that cannot report
SUCCESS. -/
theorem cg_success_tests_witness :
    (cgIteration ⟨0, 7, 10, 1, 1000⟩ (fun v => v) (fun v => v) [(1 : ℚ)]
        1 1 ⟨[0], [1], [0], 1, 0⟩ =
      .inl (⟨SUCCESS, "Convergence: zeta < q_tolerance.", 1⟩,
            cgXnew (fun v => v) (fun v => v) 1 ⟨[0], [1], [0], 1, 0⟩)) ∧
    (∃ m, cgIteration ⟨0, 7, 10, 1, 1000⟩ (fun v => v) (fun v => v)
        [(1 : ℚ)] 1 1 ⟨[0], [1], [0], 1, 0⟩ =
      .inl (⟨SUCCESS, m, 1⟩,
            cgXnew (fun v => v) (fun v => v) 1 ⟨[0], [1], [0], 1, 0⟩)) ∧
    (∀ sm v, cgIteration ⟨5, 1, 10, 1, 1⟩ (fun v => v) (fun v => v)
        [(1 : ℚ)] 1 1 ⟨[0], [1], [0], 1, 0⟩ = .inl (sm, v) →
      sm.termination_type ≠ SUCCESS) :=
  ⟨(cg_success_tests ⟨0, 7, 10, 1, 1000⟩ (fun v => v) (fun v => v)
      [(1 : ℚ)] 1 1 ⟨[0], [1], [0], 1, 0⟩).1
     (by norm_num [cgRho, cgZ, dot]) (fun h => absurd rfl h)
     (by norm_num [cgPQ, cgQvec, cgDir, cgZ, cgRho, dot])
     (by norm_num [cgZeta, cgQ1, cgRnew, cgXnew, cgAlpha, cgPQ, cgQvec,
        cgDir, cgZ, cgRho, vadd, vsub, smul, dot]) (by norm_num),
   (cg_success_tests ⟨0, 7, 10, 1, 1000⟩ (fun v => v) (fun v => v)
      [(1 : ℚ)] 1 1 ⟨[0], [1], [0], 1, 0⟩).2.1
     (by norm_num [cgRho, cgZ, dot]) (fun h => absurd rfl h)
     (by norm_num [cgPQ, cgQvec, cgDir, cgZ, cgRho, dot])
     (by norm_num [residualLeTol, normSq, cgRnew, cgXnew, cgAlpha, cgPQ,
        cgQvec, cgDir, cgZ, cgRho, vadd, vsub, smul, dot])
     (by norm_num),
   (cg_success_tests ⟨5, 1, 10, 1, 1⟩ (fun v => v) (fun v => v)
      [(1 : ℚ)] 1 1 ⟨[0], [1], [0], 1, 0⟩).2.2 (by norm_num)⟩

lemma setZero_eq_replicate (x : Vec) :
    setZero x = List.replicate x.length (0 : ℚ) := by
  induction x with
  | nil => rfl
  | cons a t ih =>
      show (0 : ℚ) :: setZero t = List.replicate (t.length + 1) 0
      rw [List.replicate_succ, ih]

/-- C10: `CgnrSolver::SolveImpl` zeroes the output vector `x` before
starting the conjugate-gradients solve, so two calls that differ only in
the initial contents of `x` (same `A`, `b`, `D`, options and
preconditioner construction) return identical summaries and
solutions. -/
theorem cgnr_result_independent_of_initial_x
    (options : ConjugateGradientsSolverOptions)
    (mkPre : SpMat → Vec → (Vec → Vec)) (A : SpMat) (b D : Vec)
    (x x' : Vec) (h : x.length = x'.length) :
    CgnrSolverSolveImpl options mkPre A b D x =
      CgnrSolverSolveImpl options mkPre A b D x' := by
  have hz : setZero x = setZero x' := by
    rw [setZero_eq_replicate, setZero_eq_replicate, h]
  rw [CgnrSolverSolveImpl, CgnrSolverSolveImpl, hz]

/-- Witness for `cgnr_result_independent_of_initial_x` on a concrete
1×1 system with two different initial `x` buffers. -/
theorem cgnr_result_independent_of_initial_x_witness :
    CgnrSolverSolveImpl ⟨0, 7, 10, 1, 1⟩ (fun _ _ v => v) ⟨1, [[1]]⟩
        [(1 : ℚ)] [(0 : ℚ)] [(5 : ℚ)] =
      CgnrSolverSolveImpl ⟨0, 7, 10, 1, 1⟩ (fun _ _ v => v) ⟨1, [[1]]⟩
        [(1 : ℚ)] [(0 : ℚ)] [(9 : ℚ)] :=
  cgnr_result_independent_of_initial_x ⟨0, 7, 10, 1, 1⟩ (fun _ _ v => v)
    ⟨1, [[1]]⟩ [(1 : ℚ)] [(0 : ℚ)] [(5 : ℚ)] [(9 : ℚ)] rfl

lemma evalBlockStep_aborted {st : EvalState} (h : st.abort = true)
    (idx : Nat) (blk : Option ℚ) : evalBlockStep st idx blk = st := by
  simp [evalBlockStep, h]

lemma evalLoop_aborted :
    ∀ (l : List (Option ℚ)) (idx : Nat) (st : EvalState),
      st.abort = true → evalLoop idx l st = st
  | [], _, _, _ => rfl
  | blk :: rest, idx, st, h => by
      rw [evalLoop, evalBlockStep_aborted h,
        evalLoop_aborted rest (idx + 1) st h]

lemma evalLoop_append (l₁ l₂ : List (Option ℚ)) :
    ∀ (idx : Nat) (st : EvalState),
      evalLoop idx (l₁ ++ l₂) st =
        evalLoop (idx + l₁.length) l₂ (evalLoop idx l₁ st) := by
  induction l₁ with
  | nil => intro idx st; simp [evalLoop]
  | cons blk rest ih =>
      intro idx st
      simp only [List.cons_append, evalLoop, List.length_cons,
        List.append_eq]
      rw [ih]
      have h : idx + 1 + rest.length = idx + (rest.length + 1) := by omega
      rw [h]

lemma evalLoop_written_mem :
    ∀ (l : List (Option ℚ)) (idx : Nat) (st : EvalState) (j : Nat),
      j ∈ (evalLoop idx l st).written →
        j ∈ st.written ∨ (idx ≤ j ∧ j < idx + l.length) := by
  intro l
  induction l with
  | nil => intro idx st j hj; exact Or.inl hj
  | cons blk rest ih =>
      intro idx st j hj
      rcases ih (idx + 1) (evalBlockStep st idx blk) j hj with hmem | hrange
      · by_cases ha : st.abort
        · rw [evalBlockStep_aborted ha] at hmem
          exact Or.inl hmem
        · match blk with
          | none =>
              simp [evalBlockStep, ha] at hmem
              exact Or.inl hmem
          | some c =>
              simp [evalBlockStep, ha] at hmem
              rcases hmem with hmem | hmem
              · exact Or.inl hmem
              · right
                subst hmem
                simp
      · right
        simp only [List.length_cons]
        omega

/-- C7: if any single residual-block evaluation returns false during
`ProgramEvaluator::Evaluate`, the whole evaluation aborts cooperatively:
`Evaluate` returns false, the cost reduction is skipped, and no residual
block scheduled after the failing one performs its writes (it observes
the shared `abort` flag and skips its body). -/
theorem evaluator_aborts_on_failure (blocks : List (Option ℚ)) (i : Nat)
    (hi : blocks.get? i = some none) :
    (ProgramEvaluatorEvaluate blocks).1 = false ∧
    (ProgramEvaluatorEvaluate blocks).2.1 = none ∧
    (∀ j ∈ (ProgramEvaluatorEvaluate blocks).2.2, j < i) := by
  obtain ⟨hlen, hget⟩ := List.get?_eq_some.mp hi
  have hsplit : blocks = blocks.take i ++ none :: blocks.drop (i + 1) := by
    conv_lhs => rw [← List.take_append_drop i blocks]
    rw [List.drop_eq_get_cons hlen, hget]
  have htake : (blocks.take i).length = i := by
    rw [List.length_take]
    omega
  set st₁ := evalLoop 0 (blocks.take i) ⟨false, 0, []⟩ with hst₁
  set st₂ := evalBlockStep st₁ i none with hst₂
  have habort : st₂.abort = true := by
    rw [hst₂, evalBlockStep]
    split
    · assumption
    · rfl
  have hwr : st₂.written = st₁.written := by
    rw [hst₂, evalBlockStep]
    split
    · rfl
    · rfl
  have hfin : evalLoop 0 blocks ⟨false, 0, []⟩ = st₂ := by
    conv_lhs => rw [hsplit]
    rw [evalLoop_append, htake, Nat.zero_add, evalLoop, ← hst₁, ← hst₂,
      evalLoop_aborted _ _ _ habort]
  refine ⟨?_, ?_, ?_⟩
  · simp only [ProgramEvaluatorEvaluate, hfin, habort]
    rfl
  · simp only [ProgramEvaluatorEvaluate, hfin, habort]
    rfl
  · intro j hj
    simp only [ProgramEvaluatorEvaluate, hfin, hwr] at hj
    rcases evalLoop_written_mem (blocks.take i) 0 ⟨false, 0, []⟩ j hj with
      hmem | hrange
    · simp at hmem
    · omega

/-- Witness for `evaluator_aborts_on_failure`: the second of three
residual blocks fails; only the first was written. -/
theorem evaluator_aborts_on_failure_witness :
    (ProgramEvaluatorEvaluate [some 1, none, some 2]).1 = false ∧
    (ProgramEvaluatorEvaluate [some 1, none, some 2]).2.1 = none ∧
    (∀ j ∈ (ProgramEvaluatorEvaluate [some 1, none, some 2]).2.2,
      j < 1) :=
  evaluator_aborts_on_failure [some 1, none, some 2] 1 rfl

/-- C4: a problem with zero non-constant parameter blocks, or with
parameter blocks but zero residual blocks, is detected before the
minimization loop starts: `Solve` returns CONVERGENCE with the exact
message "Function tolerance reached. No non-constant parameter blocks
found." and the evaluator is never invoked (zero evaluator calls),
whatever the rest of the pipeline would do. -/
theorem solve_degenerate_problem
    (minimize : ProblemShape → SolverSummary × Nat) (p : ProblemShape)
    (h : numNonConstantParameterBlocks p = 0 ∨
      p.num_residual_blocks = 0) :
    SolveModel minimize p =
      (⟨CONVERGENCE,
        "Function tolerance reached. No non-constant parameter blocks found."⟩,
       0) := by
  simp only [SolveModel]
  rw [if_pos h]

/-- Witness for `solve_degenerate_problem`: an empty problem, and a
problem with one (non-constant) parameter block but zero residual
blocks; neither reaches the minimizer. -/
theorem solve_degenerate_problem_witness :
    (SolveModel (fun _ => (⟨SolverTerminationType.FAILURE, "boom"⟩, 99))
        ⟨[], 0⟩ =
      (⟨CONVERGENCE,
        "Function tolerance reached. No non-constant parameter blocks found."⟩,
       0)) ∧
    (SolveModel (fun _ => (⟨SolverTerminationType.FAILURE, "boom"⟩, 99))
        ⟨[⟨false⟩], 0⟩ =
      (⟨CONVERGENCE,
        "Function tolerance reached. No non-constant parameter blocks found."⟩,
       0)) :=
  ⟨solve_degenerate_problem _ ⟨[], 0⟩ (Or.inl (by decide)),
   solve_degenerate_problem _ ⟨[⟨false⟩], 0⟩ (Or.inr rfl)⟩

/-- C5: for a direct solver's `FactorAndSolve`, `Solve` is invoked only
if the preceding `Factorize` returned SUCCESS — on factorization failure
its termination type is returned and `Solve` is skipped — and the
iterative-refinement wrapper's `Refine` is invoked exactly when both
`Factorize` and `Solve` succeed. -/
theorem factor_and_solve_gating (b : DirectSolverBackend) :
    (b.factorize_result ≠ SUCCESS →
      FactorAndSolve b = (b.factorize_result, false)) ∧
    (b.factorize_result = SUCCESS →
      FactorAndSolve b = (b.solve_result, true)) ∧
    ((RefinedFactorAndSolve b).2.2 = true ↔
      b.factorize_result = SUCCESS ∧ b.solve_result = SUCCESS) := by
  obtain ⟨f, sv⟩ := b
  refine ⟨?_, ?_, ?_⟩
  · intro h
    simp [FactorAndSolve, h]
  · intro h
    simp only at h
    subst h
    simp [FactorAndSolve]
  · cases f <;> cases sv <;> decide

/-- Witness for `factor_and_solve_gating`: a failing factorization skips
`Solve`, a succeeding one runs it, and `Refine` fires exactly on full
success. -/
theorem factor_and_solve_gating_witness :
    (FactorAndSolve ⟨LinearSolverTerminationType.FAILURE,
        LinearSolverTerminationType.SUCCESS⟩ =
      (LinearSolverTerminationType.FAILURE, false)) ∧
    (FactorAndSolve ⟨LinearSolverTerminationType.SUCCESS,
        LinearSolverTerminationType.SUCCESS⟩ =
      (LinearSolverTerminationType.SUCCESS, true)) ∧
    ((RefinedFactorAndSolve ⟨LinearSolverTerminationType.SUCCESS,
        LinearSolverTerminationType.SUCCESS⟩).2.2 = true) :=
  ⟨(factor_and_solve_gating ⟨LinearSolverTerminationType.FAILURE,
      LinearSolverTerminationType.SUCCESS⟩).1 (by decide),
   (factor_and_solve_gating ⟨LinearSolverTerminationType.SUCCESS,
      LinearSolverTerminationType.SUCCESS⟩).2.1 rfl,
   (factor_and_solve_gating ⟨LinearSolverTerminationType.SUCCESS,
      LinearSolverTerminationType.SUCCESS⟩).2.2.mpr ⟨rfl, rfl⟩⟩

lemma pseLoop_spec (tol : ℚ) (minIt maxIt : Nat) (t : Nat → ℚ) :
    ∀ fuel i, 1 ≤ i → 1 ≤ fuel → maxIt + 1 ≤ i + fuel →
      pseStopB tol minIt maxIt t
          (pseLoop tol minIt maxIt t fuel (pseSum t (i - 1)) i).2 =
        true ∧
      (∀ j, i ≤ j →
        j < (pseLoop tol minIt maxIt t fuel (pseSum t (i - 1)) i).2 →
        pseStopB tol minIt maxIt t j = false) ∧
      (pseLoop tol minIt maxIt t fuel (pseSum t (i - 1)) i).1 =
        pseSum t
          (pseLoop tol minIt maxIt t fuel (pseSum t (i - 1)) i).2 ∧
      i ≤ (pseLoop tol minIt maxIt t fuel (pseSum t (i - 1)) i).2 := by
  intro fuel
  induction fuel with
  | zero => intro i _ h2 _; omega
  | succ fuel ih =>
      intro i h1 _ h3
      have hacc : pseSum t (i - 1) + t i = pseSum t i := by
        obtain ⟨m, rfl⟩ : ∃ m, i = m + 1 := ⟨i - 1, by omega⟩
        simp [pseSum]
      have hunf : pseLoop tol minIt maxIt t (fuel + 1)
          (pseSum t (i - 1)) i =
          if pseStopAcc tol minIt maxIt t i (pseSum t i) = true then
            (pseSum t i, i)
          else pseLoop tol minIt maxIt t fuel (pseSum t i) (i + 1) := by
        simp only [pseLoop]
        rw [hacc]
      by_cases hstop : pseStopAcc tol minIt maxIt t i (pseSum t i) = true
      · rw [hunf, if_pos hstop]
        exact ⟨hstop, fun j hij hjlt => by omega, rfl, le_refl i⟩
      · rw [hunf, if_neg hstop]
        have hmaxgt : ¬ (maxIt ≤ i) := by
          intro hle
          exact hstop (by simp [pseStopAcc, hle])
        have hfuel : 1 ≤ fuel := by omega
        have IH := ih (i + 1) (by omega) hfuel (by omega)
        have hi1 : pseSum t (i + 1 - 1) = pseSum t i := by simp
        rw [hi1] at IH
        refine ⟨IH.1, ?_, IH.2.2.1, by omega⟩
        intro j hij hjlt
        rcases eq_or_lt_of_le hij with heq | hlt
        · subst heq
          cases hb : pseStopB tol minIt maxIt t i with
          | false => rfl
          | true =>
              simp only [pseStopB] at hb
              exact absurd hb hstop
        · exact IH.2.1 j hlt hjlt

/-- C6: the power-series-expansion accumulation stops at the first
iteration where the relative-change test (honoured only from
`min_iterations` on) or the iteration cap fires, whichever happens
first; the accumulated value is the corresponding partial Neumann sum;
the cap is a hard ceiling independent of the tolerance; and an instance
with `min_iterations = max_iterations = 1` truncates after the first
series term regardless of the tolerance. -/
theorem pse_stopping_rule (tol : ℚ) (minIt maxIt : Nat) (t : Nat → ℚ) :
    pseStopB tol minIt maxIt t
        (PowerSeriesAccumulate tol minIt maxIt t).2 = true ∧
    (∀ j, 1 ≤ j → j < (PowerSeriesAccumulate tol minIt maxIt t).2 →
      pseStopB tol minIt maxIt t j = false) ∧
    (PowerSeriesAccumulate tol minIt maxIt t).1 =
      pseSum t (PowerSeriesAccumulate tol minIt maxIt t).2 ∧
    1 ≤ (PowerSeriesAccumulate tol minIt maxIt t).2 ∧
    (PowerSeriesAccumulate tol minIt maxIt t).2 ≤ max maxIt 1 ∧
    (minIt = 1 ∧ maxIt = 1 →
      PowerSeriesAccumulate tol minIt maxIt t = (t 0 + t 1, 1)) := by
  have base := pseLoop_spec tol minIt maxIt t (maxIt + 1) 1 (le_refl 1)
    (by omega) (by omega)
  have hinit : pseSum t (1 - 1) = t 0 := rfl
  rw [hinit] at base
  have hPA : PowerSeriesAccumulate tol minIt maxIt t =
      pseLoop tol minIt maxIt t (maxIt + 1) (t 0) 1 := rfl
  rw [← hPA] at base
  obtain ⟨hstop, hfirst, hsum, hge⟩ := base
  have hcap : (PowerSeriesAccumulate tol minIt maxIt t).2 ≤
      max maxIt 1 := by
    by_contra hgt
    push_neg at hgt
    have hj : pseStopB tol minIt maxIt t (max maxIt 1) = false :=
      hfirst (max maxIt 1) (le_max_right maxIt 1) hgt
    have : pseStopB tol minIt maxIt t (max maxIt 1) = true := by
      simp [pseStopB, pseStopAcc, le_max_left maxIt 1]
    rw [this] at hj
    cases hj
  refine ⟨hstop, hfirst, hsum, hge, hcap, ?_⟩
  rintro ⟨rfl, rfl⟩
  have hn : (PowerSeriesAccumulate tol 1 1 t).2 = 1 := by
    have := hcap
    simp only [max_self] at this
    omega
  have hv : (PowerSeriesAccumulate tol 1 1 t).1 = t 0 + t 1 := by
    rw [hsum, hn]
    rfl
  rw [Prod.ext_iff]
  exact ⟨hv, hn⟩

set_option maxHeartbeats 1000000 in
/-- Witness for `pse_stopping_rule` on the geometric series
`t i = (1/2)ⁱ` (series value 2): the `min = max = 1` instance truncates
after one term (via the theorem), its value `3/2` misses the series
value by more than the test tolerance `1/50`, while the same tolerance
with cap 50 stops at iteration 6 with value `127/64`, within `1/50`. -/
theorem pse_stopping_rule_witness :
    (PowerSeriesAccumulate (1 / 100) 1 1 (fun i => (1 / 2 : ℚ) ^ i) =
      ((1 / 2 : ℚ) ^ 0 + (1 / 2 : ℚ) ^ 1, 1)) ∧
    (1 / 50 : ℚ) < 2 - ((1 / 2 : ℚ) ^ 0 + (1 / 2 : ℚ) ^ 1) ∧
    (PowerSeriesAccumulate (1 / 100) 1 50 (fun i => (1 / 2 : ℚ) ^ i) =
      (127 / 64, 6)) ∧
    (2 : ℚ) - 127 / 64 ≤ 1 / 50 :=
  ⟨(pse_stopping_rule (1 / 100) 1 1 (fun i => (1 / 2 : ℚ) ^ i)).2.2.2.2.2
     ⟨rfl, rfl⟩,
   by norm_num,
   by norm_num [PowerSeriesAccumulate, pseLoop, pseStopAcc, abs_of_nonneg],
   by norm_num⟩

lemma plusStep_get_const :
    ∀ (bs : List PBlock) (ds : List ℚ) (i : Nat) (b : PBlock),
      bs.get? i = some b → b.is_constant = true →
        (plusStep bs ds).get? i = some b := by
  intro bs
  induction bs with
  | nil => intro ds i b h _; cases h
  | cons b0 rest ih =>
      intro ds i b hget hconst
      by_cases hc : b0.is_constant
      · cases i with
        | zero =>
            simp only [List.get?_cons_zero, Option.some.injEq] at hget
            subst hget
            simp [plusStep, hc]
        | succ n =>
            simp only [List.get?_cons_succ] at hget
            simp only [plusStep, if_pos hc, List.get?_cons_succ]
            exact ih ds n b hget hconst
      · cases ds with
        | nil =>
            cases i with
            | zero =>
                simp only [List.get?_cons_zero, Option.some.injEq] at hget
                subst hget
                simp [plusStep, hc]
            | succ n =>
                simp only [List.get?_cons_succ] at hget
                simp only [plusStep, if_neg hc, List.get?_cons_succ]
                exact ih [] n b hget hconst
        | cons d ds2 =>
            cases i with
            | zero =>
                simp only [List.get?_cons_zero, Option.some.injEq] at hget
                subst hget
                exact absurd hconst (by simpa using hc)
            | succ n =>
                simp only [List.get?_cons_succ] at hget
                simp only [plusStep, if_neg hc, List.get?_cons_succ]
                exact ih ds2 n b hget hconst

lemma runSolveSteps_get_const :
    ∀ (steps : List (List ℚ)) (blocks : List PBlock) (i : Nat)
      (b : PBlock), blocks.get? i = some b → b.is_constant = true →
        (runSolveSteps blocks steps).get? i = some b := by
  intro steps
  induction steps with
  | nil => intro blocks i b hget _; exact hget
  | cons s rest ih =>
      intro blocks i b hget hconst
      exact ih (plusStep blocks s) i b
        (plusStep_get_const blocks s i b hget hconst) hconst

/-- C8: after a solve, every parameter block marked constant holds
exactly the value it held before the solve (no accepted step touches
it), and when every residual touches only constant blocks the total cost
is unchanged, i.e. `initial_cost = final_cost`. -/
theorem constant_blocks_preserved (blocks : List PBlock)
    (steps : List (List ℚ)) (residuals : List RBlock) :
    (∀ i b, blocks.get? i = some b → b.is_constant = true →
      (runSolveSteps blocks steps).get? i = some b) ∧
    ((∀ r ∈ residuals, ∀ i ∈ r.touched,
        ∃ b, blocks.get? i = some b ∧ b.is_constant = true) →
      totalCost residuals (runSolveSteps blocks steps) =
        totalCost residuals blocks) := by
  refine ⟨fun i b hget hconst =>
    runSolveSteps_get_const steps blocks i b hget hconst, ?_⟩
  intro hres
  unfold totalCost
  congr 1
  congr 1
  apply List.map_congr_left
  intro r hr
  congr 2
  apply List.map_congr_left
  intro i hi
  obtain ⟨b, hget, hconst⟩ := hres r hr i hi
  unfold blockValue
  rw [hget, runSolveSteps_get_const steps blocks i b hget hconst]

/-- Witness for `constant_blocks_preserved`: a four-block problem with
blocks 0 and 3 constant, two accepted steps, and a residual touching
only block 0; block 0 keeps its value and the cost is unchanged. -/
theorem constant_blocks_preserved_witness :
    ((runSolveSteps
        [⟨10, true⟩, ⟨20, false⟩, ⟨30, false⟩, ⟨40, true⟩]
        [[1, 1], [2, 2]]).get? 0 = some ⟨10, true⟩) ∧
    (totalCost [⟨[0], fun v => v.sum⟩]
        (runSolveSteps
          [⟨10, true⟩, ⟨20, false⟩, ⟨30, false⟩, ⟨40, true⟩]
          [[1, 1], [2, 2]]) =
      totalCost [⟨[0], fun v => v.sum⟩]
        [⟨10, true⟩, ⟨20, false⟩, ⟨30, false⟩, ⟨40, true⟩]) :=
  ⟨(constant_blocks_preserved
      [⟨10, true⟩, ⟨20, false⟩, ⟨30, false⟩, ⟨40, true⟩]
      [[1, 1], [2, 2]] []).1 0 ⟨10, true⟩ rfl rfl,
   (constant_blocks_preserved
      [⟨10, true⟩, ⟨20, false⟩, ⟨30, false⟩, ⟨40, true⟩]
      [[1, 1], [2, 2]] [⟨[0], fun v => v.sum⟩]).2
     (by
        intro r hr i hi
        simp only [List.mem_singleton] at hr
        subst hr
        simp only [List.mem_singleton] at hi
        subst hi
        exact ⟨⟨10, true⟩, rfl, rfl⟩)⟩

lemma callbackTrace_spec (reqs : List (ℚ × Bool)) :
    ∀ last : Option ℚ,
      ((callbackTrace last reqs).filter CbEvent.isPrepare).length =
        reqs.length ∧
      ((callbackTrace last reqs).filter
          (fun e => !(e.isPrepare))).length = reqs.length ∧
      (∀ k x jac, reqs.get? k = some (x, jac) →
        ∃ np,
          (callbackTrace last reqs).get? (2 * k) =
            some (.prepare x jac np) ∧
          (callbackTrace last reqs).get? (2 * k + 1) =
            some (.evaluate x jac)) := by
  induction reqs with
  | nil =>
      intro last
      refine ⟨rfl, rfl, ?_⟩
      intro k x jac h
      cases h
  | cons hd rest ih =>
      intro last
      obtain ⟨x0, jac0⟩ := hd
      have IH := ih (some x0)
      refine ⟨?_, ?_, ?_⟩
      · simp only [callbackTrace]
        rw [List.filter_cons_of_pos (by rfl),
          List.filter_cons_of_neg (by simp [CbEvent.isPrepare])]
        simp only [List.length_cons]
        rw [IH.1]
      · simp only [callbackTrace]
        rw [List.filter_cons_of_neg (by simp [CbEvent.isPrepare]),
          List.filter_cons_of_pos (by rfl)]
        simp only [List.length_cons]
        rw [IH.2.1]
      · intro k x jac hk
        cases k with
        | zero =>
            simp only [List.get?_cons_zero, Option.some.injEq,
              Prod.mk.injEq] at hk
            obtain ⟨rfl, rfl⟩ := hk
            exact ⟨decide (last ≠ some x0), rfl, rfl⟩
        | succ k =>
            simp only [List.get?_cons_succ] at hk
            obtain ⟨np, h1, h2⟩ := IH.2.2 k x jac hk
            refine ⟨np, ?_, ?_⟩
            · have h2k : 2 * (k + 1) = (2 * k + 1) + 1 := by omega
              rw [h2k]
              simpa [callbackTrace] using h1
            · have h2k : 2 * (k + 1) + 1 = (2 * k + 1 + 1) + 1 := by
                omega
              rw [h2k]
              simpa [callbackTrace] using h2

/-- C9: in one solve, each evaluation request (cost-only or
cost-plus-Jacobian) is preceded by exactly one `PrepareForEvaluation`
event — prepare and evaluate events pair up one-to-one — and the
parameter value observed by the cost function's `Evaluate` equals the
value observed by the immediately preceding prepare event for that
point. -/
theorem callback_pairing (reqs : List (ℚ × Bool)) :
    ((runWithCallback reqs).filter CbEvent.isPrepare).length =
      reqs.length ∧
    ((runWithCallback reqs).filter (fun e => !(e.isPrepare))).length =
      reqs.length ∧
    (∀ k x jac, reqs.get? k = some (x, jac) →
      ∃ np,
        (runWithCallback reqs).get? (2 * k) = some (.prepare x jac np) ∧
        (runWithCallback reqs).get? (2 * k + 1) =
          some (.evaluate x jac)) :=
  callbackTrace_spec reqs none

/-- Witness for `callback_pairing`: three evaluations (a new point with
Jacobians, the same point cost-only, a new point with Jacobians); the
second request's evaluate event is adjacent to its own prepare event
with the same parameter value. -/
theorem callback_pairing_witness :
    (((runWithCallback [(1, true), (1, false), (2, true)]).filter
        CbEvent.isPrepare).length = 3) ∧
    (∃ np,
      (runWithCallback [(1, true), (1, false), (2, true)]).get? 2 =
        some (.prepare 1 false np) ∧
      (runWithCallback [(1, true), (1, false), (2, true)]).get? 3 =
        some (.evaluate 1 false)) :=
  ⟨(callback_pairing [(1, true), (1, false), (2, true)]).1,
   (callback_pairing [(1, true), (1, false), (2, true)]).2.2 1 1 false
     rfl⟩

end Ceres
